import Mathlib

/-!
Shallow embedding of `src/main.py` (flask-router): the decorator-pattern
dispatcher (`Component`, `Handler`, `dispatch_request`) and the route-tree
flattener (`Route`, `Include`, `Router.add_routes` / `Router.add_route`),
together with the demo program (controller, `JSONAPIHandler`, decorators
`A` and `B`, the `routes` tree).

Python exceptions that the claims mention are modelled by `PyErr`:
`indexError` is the `IndexError` raised by `list.pop()` on an empty list
(the spec's "ConfigurationError" condition), `typeError` is the
`TypeError` raised by calling a class with the wrong number of
constructor arguments or by iterating `None` (the spec's
"ConstructionError" / malformed-tree conditions).
-/

namespace FlaskRouter

/-- Python exceptions that the embedded code can raise. -/
inductive PyErr : Type where
  | indexError
  | typeError
deriving DecidableEq, Repr

/-- An element of a `decorators` list in the Python code: either a
`Component` subclass (its `__init__` takes the wrapped `parent`) or a
`Handler` subclass (its `__init__` takes no arguments).  `δ` is the set of
`Component` subclasses, `κ` the set of `Handler` subclasses. -/
inductive Ctor (δ κ : Type) : Type where
  | componentC (d : δ)
  | handlerC (c : κ)
deriving DecidableEq, Repr

/-- A constructed handler object: either an instance of a concrete
`Handler` subclass, or a `Component` instance holding its `parent`
(`self.parent = parent` in `Component.__init__`). -/
inductive Obj (δ κ : Type) : Type where
  | concrete (c : κ)
  | wrap (d : δ) (parent : Obj δ κ)
deriving DecidableEq, Repr

variable {δ κ γ ρ : Type}

/-- Calling a constructor with no arguments, as `dispatch_request` does
for the last list element (`handler()`): a `Handler` subclass produces a
concrete instance; a `Component` subclass raises `TypeError` because its
required `parent` argument is missing. -/
def call0 : Ctor δ κ → Except PyErr (Obj δ κ)
  | .handlerC c => .ok (.concrete c)
  | .componentC _ => .error .typeError

/-- Calling a constructor with the previously built handler as its sole
argument (`decorator(handler)`): a `Component` subclass wraps the handler;
a `Handler` subclass raises `TypeError` because it takes no arguments. -/
def call1 (handler : Obj δ κ) : Ctor δ κ → Except PyErr (Obj δ κ)
  | .componentC d => .ok (.wrap d handler)
  | .handlerC _ => .error .typeError

/-- The `while decorators:` loop of `dispatch_request`, which repeatedly
pops the LAST element and wraps the current handler with it.  Popping from
the end of the Python list is modelled by structural recursion over the
REVERSED list: `wrapRev handler l` processes `l` head-first, so the caller
passes `decorators.reverse`.  The second component is what remains of the
caller's (mutated) list, in original order, when the loop stops —
`list.pop()` mutates the list in place. -/
def wrapRev (handler : Obj δ κ) : List (Ctor δ κ) → Except PyErr (Obj δ κ) × List (Ctor δ κ)
  | [] => (.ok handler, [])
  | d :: rest =>
    match call1 handler d with
    | .error e => (.error e, rest.reverse)
    | .ok handler' => wrapRev handler' rest

/-- `dispatch_request(fn, decorators, **uri_args)` from `src/main.py`.

Because `dispatch_request` mutates the `decorators` list (two `pop` call
sites drain it from the end), the embedding returns, besides the result of
`fn(handler, **uri_args)` or the propagated exception, the final content
of the caller's list object.  An empty list makes the first
`decorators.pop()` raise `IndexError`; a constructor called with the wrong
arity raises `TypeError`; both propagate to the caller. -/
def dispatch_request (fn : Obj δ κ → List (String × String) → ρ)
    (decorators : List (Ctor δ κ)) (uri_args : List (String × String)) :
    Except PyErr ρ × List (Ctor δ κ) :=
  match decorators.getLast? with
  | none => (.error .indexError, decorators)
  | some hc =>
    let rest := decorators.dropLast
    match call0 hc with
    | .error e => (.error e, rest)
    | .ok handler =>
      match wrapRev handler rest.reverse with
      | (.error e, l) => (.error e, l)
      | (.ok handler', l) => (.ok (fn handler' uri_args), l)

/-- The object `D1(D2(...Dn(Concrete())...))` for a decorator list
`[d1, ..., dn]` around concrete class `c`: the first-listed decorator is
the outermost wrapper. -/
def buildChain (ds : List δ) (c : κ) : Obj δ κ :=
  ds.foldr (fun d o => .wrap d o) (.concrete c)

/-- Method lookup and invocation on a handler object, for zero-argument
methods returning a value of type `V`.  `ov d op` tells whether
`Component` subclass `d` overrides method `op`, and with which
transformation of the parent's result (the source pattern of `A.test` and
`B.test`: `result = self.parent.test(...)`, transform, return);
`im c op` is the concrete class's implementation (`none` models an
`AttributeError`: no class in the chain implements `op`).  A component
that does not override `op` forwards the lookup to `self.parent` through
`Component.__getattr__`. -/
def invoke {V : Type} (ov : δ → String → Option (V → V)) (im : κ → String → Option V) :
    Obj δ κ → String → Option V
  | .concrete c, op => im c op
  | .wrap d parent, op =>
    match ov d op with
    | some f => (invoke ov im parent op).map f
    | none => invoke ov im parent op

/-!
The route tree.  In the source, `Routes = Optional[List[RouteLike]]` and
`RouteLike = Union[Route, Include]`; `Include.routes` is stored as given
(no `or []`), so it can be `None`.  The `Optional` and the list layer are
spelled out as the mutual inductives `Routes` and `RouteList` so that the
flattener is plain structural recursion.  The type is polymorphic in the
type `χ` of the `components` annotation: the pure flattener reads
components lists as values (`χ = List (Ctor δ κ)`), the heap flattener as
references to list objects (`χ = Ref`). -/

mutual

inductive RouteLike (χ δ κ γ : Type) : Type where
  | route (path : String) (controller : γ) (handler : Ctor δ κ)
      (method : String) (name : String) (components : χ)
  | inc (pre : String) (routes : Routes χ δ κ γ) (components : χ) (nspace : String)

inductive Routes (χ δ κ γ : Type) : Type where
  | none
  | some (rs : RouteList χ δ κ γ)

inductive RouteList (χ δ κ γ : Type) : Type where
  | nil
  | cons (r : RouteLike χ δ κ γ) (rs : RouteList χ δ κ γ)

end

/-- One `app.add_url_rule(path, name, handler, methods=[route.method])`
call: the registered URL rule.  Its third argument in the source is
`functools.partial(dispatch_request, fn=route.controller,
decorators=components)`; the rule records the bound controller and the
bound `decorators` argument (`χ` is a components value or reference,
matching the tree). -/
structure Binding (χ δ κ γ : Type) : Type where
  path : String
  name : Option String
  fn : γ
  decorators : χ
  method : String

/-- `'{}{}'.format(namespace, route.name) or None`: an empty concatenated
name is registered as `None` (absent), a non-empty one as itself. -/
def strOrNone (s : String) : Option String :=
  if s = "" then none else some s

/-!
The pure flattener: `Router.add_route` / `Router.add_routes` with
components lists read as values.  `app.add_url_rule` appends to the app's
rule table, and an exception thrown mid-way leaves the rules added so far
in place, so each function returns the list of rules it added together
with the exception that aborted it, if any (`for route in None` in
`add_routes` raises `TypeError`).
-/

mutual

/-- `Router.add_route(route, components, prefix, namespace)`.  For an
`Include`: concatenate namespace, prefix and components
(`components + route.components`, a fresh list) and recurse.  For a
`Route`: register one rule with name `'{}{}'.format(namespace,
route.name) or None`, path `prefix + route.path` and decorators
`components + route.components + [route.handler]`. -/
def add_route : RouteLike (List (Ctor δ κ)) δ κ γ → List (Ctor δ κ) → String → String →
    List (Binding (List (Ctor δ κ)) δ κ γ) × Option PyErr
  | .route path ctrl handler method name comps, components, pre, nspace =>
    ([⟨pre ++ path, strOrNone (nspace ++ name), ctrl,
       components ++ comps ++ [handler], method⟩], none)
  | .inc p rs comps ns, components, pre, nspace =>
    add_routes rs (components ++ comps) (pre ++ p) (nspace ++ ns)

/-- `Router.add_routes(routes, components, prefix, namespace)`: iterate
`for route in routes` calling `add_route`.  Iterating `None` raises
`TypeError` before any route is registered. -/
def add_routes : Routes (List (Ctor δ κ)) δ κ γ → List (Ctor δ κ) → String → String →
    List (Binding (List (Ctor δ κ)) δ κ γ) × Option PyErr
  | .none, _, _, _ => ([], .some .typeError)
  | .some rs, components, pre, nspace => add_route_list rs components pre nspace

/-- The `for` loop body of `add_routes`: routes already registered stay
registered when a later `add_route` call raises. -/
def add_route_list : RouteList (List (Ctor δ κ)) δ κ γ → List (Ctor δ κ) → String → String →
    List (Binding (List (Ctor δ κ)) δ κ γ) × Option PyErr
  | .nil, _, _, _ => ([], none)
  | .cons r rs, components, pre, nspace =>
    match add_route r components pre nspace with
    | (bs, .some e) => (bs, .some e)
    | (bs, none) =>
      match add_route_list rs components pre nspace with
      | (bs', e) => (bs ++ bs', e)

end

/-!
Heap-instrumented flattener.  Python lists are mutable objects; the claims
about mutation (the `decorators` list drained by `dispatch_request`'s
`pop` calls, and `add_route`'s promise not to mutate the lists it
concatenates) need list object identity.  A heap is a store of list
objects (`Ctor` lists); `components + route.components` reads two cells
and allocates a fresh one, exactly the source's non-mutating `+`.
-/

abbrev Ref : Type := Nat

abbrev CHeap (δ κ : Type) : Type := List (List (Ctor δ κ))

/-- Read the list object at `r` (a valid reference in every run we model;
out-of-range reads default to `[]`). -/
def hget (h : CHeap δ κ) (r : Ref) : List (Ctor δ κ) := h.getD r []

/-- Allocate a fresh list object holding `v`. -/
def halloc (h : CHeap δ κ) (v : List (Ctor δ κ)) : CHeap δ κ × Ref :=
  (h ++ [v], h.length)

/-- Overwrite the content of the list object at `r` (an in-place
mutation, as performed by `list.pop`). -/
def hset (h : CHeap δ κ) (r : Ref) (v : List (Ctor δ κ)) : CHeap δ κ :=
  h.set r v

mutual

/-- Heap version of `Router.add_route`: the tree's `components` fields
and the flattener's `components` argument are references to list
objects.  Both branches build `components + route.components` (+
`[route.handler]` in the `Route` branch) by reading the operand cells and
allocating a fresh cell — no existing cell is written. -/
def add_routeH : RouteLike Ref δ κ γ → Ref → String → String → CHeap δ κ →
    CHeap δ κ × List (Binding Ref δ κ γ) × Option PyErr
  | .route path ctrl handler method name comps, components, pre, nspace, h =>
    match halloc h (hget h components ++ hget h comps ++ [handler]) with
    | (h', r') =>
      (h', [⟨pre ++ path, strOrNone (nspace ++ name), ctrl, r', method⟩], none)
  | .inc p rs comps ns, components, pre, nspace, h =>
    match halloc h (hget h components ++ hget h comps) with
    | (h', r') => add_routesH rs r' (pre ++ p) (nspace ++ ns) h'

/-- Heap version of `Router.add_routes`. -/
def add_routesH : Routes Ref δ κ γ → Ref → String → String → CHeap δ κ →
    CHeap δ κ × List (Binding Ref δ κ γ) × Option PyErr
  | .none, _, _, _, h => (h, [], .some .typeError)
  | .some rs, components, pre, nspace, h => add_route_listH rs components pre nspace h

/-- Heap version of the `for` loop of `add_routes`. -/
def add_route_listH : RouteList Ref δ κ γ → Ref → String → String → CHeap δ κ →
    CHeap δ κ × List (Binding Ref δ κ γ) × Option PyErr
  | .nil, _, _, _, h => (h, [], none)
  | .cons r rs, components, pre, nspace, h =>
    match add_routeH r components pre nspace h with
    | (h1, bs, .some e) => (h1, bs, .some e)
    | (h1, bs, none) =>
      match add_route_listH rs components pre nspace h1 with
      | (h2, bs', e) => (h2, bs ++ bs', e)

end

/-- Invoking a registered URL rule: the rule's stored
`functools.partial(dispatch_request, fn=..., decorators=components)`
closure runs `dispatch_request` on the CURRENT content of the one list
object it bound at registration time, and the `pop` calls inside leave
that same object holding whatever remains when `dispatch_request`
returns or raises. -/
def invokeBindingH (fn : Obj δ κ → List (String × String) → ρ) (b : Binding Ref δ κ γ)
    (uri_args : List (String × String)) (h : CHeap δ κ) : Except PyErr ρ × CHeap δ κ :=
  match dispatch_request fn (hget h b.decorators) uri_args with
  | (res, l') => (res, hset h b.decorators l')

mutual

/-- The value view of a heap tree: replace each `components` reference by
the content of its cell. -/
def viewT (h : CHeap δ κ) : RouteLike Ref δ κ γ → RouteLike (List (Ctor δ κ)) δ κ γ
  | .route path ctrl handler method name comps =>
    .route path ctrl handler method name (hget h comps)
  | .inc p rs comps ns => .inc p (viewRoutes h rs) (hget h comps) ns

def viewRoutes (h : CHeap δ κ) : Routes Ref δ κ γ → Routes (List (Ctor δ κ)) δ κ γ
  | .none => .none
  | .some rs => .some (viewList h rs)

def viewList (h : CHeap δ κ) : RouteList Ref δ κ γ → RouteList (List (Ctor δ κ)) δ κ γ
  | .nil => .nil
  | .cons r rs => .cons (viewT h r) (viewList h rs)

end

mutual

/-- All `components` references of the tree point into the first `n`
cells of the heap (they were allocated before flattening starts). -/
def boundedT (n : Nat) : RouteLike Ref δ κ γ → Prop
  | .route _ _ _ _ _ comps => comps < n
  | .inc _ rs comps _ => comps < n ∧ boundedRoutes n rs

def boundedRoutes (n : Nat) : Routes Ref δ κ γ → Prop
  | .none => True
  | .some rs => boundedList n rs

def boundedList (n : Nat) : RouteList Ref δ κ γ → Prop
  | .nil => True
  | .cons r rs => boundedT n r ∧ boundedList n rs

end

/-- The value view of a registered rule: the bound `decorators` reference
replaced by the content of its cell. -/
def viewB (h : CHeap δ κ) (b : Binding Ref δ κ γ) : Binding (List (Ctor δ κ)) δ κ γ :=
  ⟨b.path, b.name, b.fn, hget h b.decorators, b.method⟩

/-!
The demo program of `src/main.py`: decorators `A` and `B`, concrete
handler `JSONAPIHandler`, the `controller`, the `JSONAPIRoute` helper and
the `routes` tree.
-/

/-- The `Component` subclasses defined in the source. -/
inductive DemoDeco : Type where
  | A
  | B
deriving DecidableEq, Repr

/-- The `Handler` subclasses defined in the source. -/
inductive DemoConc : Type where
  | JSONAPIHandler
deriving DecidableEq, Repr

/-- Python values appearing in the demo's dictionaries. -/
inductive PyVal : Type where
  | str (s : String)
  | bool (b : Bool)
deriving DecidableEq, Repr

/-- A Python `dict` with string keys, as an insertion-ordered
association list. -/
abbrev PyDict : Type := List (String × PyVal)

/-- `d[k] = v` on a Python dict: update in place if the key exists (its
position is kept), append otherwise. -/
def dictSet : PyDict → String → PyVal → PyDict
  | [], k, v => [(k, v)]
  | (k', v') :: rest, k, v =>
    if k' = k then (k, v) :: rest else (k', v') :: dictSet rest k v

abbrev DemoCtor : Type := Ctor DemoDeco DemoConc

abbrev DemoObj : Type := Obj DemoDeco DemoConc

/-- Which methods `A` and `B` override, and how they transform the
parent's result: both override only `test`, setting `result['A'] = True`
resp. `result['B'] = True` on `self.parent.test(**uri_args)`. -/
def demoOv : DemoDeco → String → Option (PyDict → PyDict)
  | .A, op => if op = "test" then some (fun r => dictSet r "A" (.bool true)) else none
  | .B, op => if op = "test" then some (fun r => dictSet r "B" (.bool true)) else none

/-- The methods of `JSONAPIHandler`: only `test`, returning
`{'hello': 'world'}`. -/
def demoIm : DemoConc → String → Option PyDict
  | .JSONAPIHandler, op => if op = "test" then some [("hello", .str "world")] else none

/-- `controller(handler, **uri_args)`: prints `handler.test()` and
returns `'hello, world!'`.  The result records (what was printed, the
return value); a `none` first component models the `AttributeError` that
`print(handler.test())` would raise if no class in the chain implemented
`test`. -/
def controllerD (handler : DemoObj) (_uri_args : List (String × String)) :
    Option PyDict × String :=
  (invoke demoOv demoIm handler "test", "hello, world!")

abbrev DemoCtrl : Type := DemoObj → List (String × String) → Option PyDict × String

/-- `JSONAPIRoute = functools.partial(Route, handler=JSONAPIHandler)`,
applied as `JSONAPIRoute(path, controller, components=..., name=...)`;
`method` keeps its default `'GET'`. -/
def JSONAPIRoute {χ : Type} (path : String) (controller : DemoCtrl) (components : χ)
    (name : String) : RouteLike χ DemoDeco DemoConc DemoCtrl :=
  .route path controller (.handlerC .JSONAPIHandler) "GET" name components

/-- The `routes` list built at the bottom of `src/main.py`:
`[Include('/users', [JSONAPIRoute('/<id>', controller, components=[B],
name='test')], components=[A])]` (components lists as values). -/
def demoRoutes : RouteList (List DemoCtor) DemoDeco DemoConc DemoCtrl :=
  .cons
    (.inc "/users"
      (.some (.cons (JSONAPIRoute "/<id>" controllerD [.componentC .B] "test") .nil))
      [.componentC .A] "")
    .nil

/-- Initial heap for the heap-instrumented demo run: cell 0 holds the
route's `components=[B]` list, cell 1 the include's `components=[A]`
list, built before `Router.add_routes` runs. -/
def demoHeap0 : CHeap DemoDeco DemoConc :=
  [[.componentC .B], [.componentC .A]]

/-- The `routes` tree with `components` fields as references into
`demoHeap0`. -/
def demoRoutesH : RouteList Ref DemoDeco DemoConc DemoCtrl :=
  .cons
    (.inc "/users"
      (.some (.cons (JSONAPIRoute "/<id>" controllerD (0 : Ref) "test") .nil))
      (1 : Ref) "")
    .nil

/-!
Helper lemmas about `dispatch_request` and `invoke`.
-/

/-- The transformation stack applied to the concrete result `v` when
method `op` is invoked on the chain `D1(...Dn(c())...)`: each decorator
that overrides `op` transforms the result coming from inside, innermost
(`Dn`) first, outermost (`D1`) last. -/
def applyOv {V : Type} (ov : δ → String → Option (V → V)) (op : String)
    (ds : List δ) (v : V) : V :=
  ds.foldr (fun d r => match ov d op with | some f => f r | none => r) v

lemma wrapRev_componentC (obj : Obj δ κ) (ds : List δ) :
    wrapRev obj (ds.map .componentC) =
      (.ok (ds.foldl (fun o d => .wrap d o) obj), []) := by
  induction ds generalizing obj with
  | nil => rfl
  | cons d rest ih => simpa [wrapRev, call1] using ih (.wrap d obj)

lemma dispatch_request_wf (fn : Obj δ κ → List (String × String) → ρ)
    (ds : List δ) (c : κ) (args : List (String × String)) :
    dispatch_request fn (ds.map (Ctor.componentC (κ := κ)) ++ [Ctor.handlerC c]) args =
      (.ok (fn (buildChain ds c) args), []) := by
  have hlast : (ds.map (Ctor.componentC (κ := κ)) ++ [Ctor.handlerC c]).getLast? =
      some (.handlerC c) := List.getLast?_concat _
  have hdrop : (ds.map (Ctor.componentC (κ := κ)) ++ [Ctor.handlerC c]).dropLast =
      ds.map (Ctor.componentC (κ := κ)) := List.dropLast_concat
  have hrev : (ds.map (Ctor.componentC (κ := κ))).reverse =
      ds.reverse.map (Ctor.componentC (κ := κ)) := by
    simp
  rw [dispatch_request, hlast]
  simp only [hdrop, call0, hrev]
  rw [wrapRev_componentC]
  simp [buildChain, List.foldl_reverse]

lemma invoke_buildChain {V : Type} (ov : δ → String → Option (V → V))
    (im : κ → String → Option V) (ds : List δ) (c : κ) (op : String) (v : V)
    (him : im c op = some v) :
    invoke ov im (buildChain ds c) op = some (applyOv ov op ds v) := by
  induction ds with
  | nil => simpa [buildChain, invoke, applyOv] using him
  | cons d rest ih =>
    simp only [buildChain, List.foldr_cons, applyOv] at ih ⊢
    cases hov : ov d op with
    | none => simpa [invoke, hov] using ih
    | some f => simp [invoke, hov, ih]

lemma invoke_passthrough {V : Type} (ov : δ → String → Option (V → V))
    (im : κ → String → Option V) (ds : List δ) (c : κ) (op : String)
    (hno : ∀ d ∈ ds, ov d op = none) :
    invoke ov im (buildChain ds c) op = im c op := by
  induction ds with
  | nil => rfl
  | cons d rest ih =>
    have hd : ov d op = none := hno d (by simp)
    have ih' := ih (fun d' hd' => hno d' (by simp [hd']))
    simp [buildChain, invoke, hd] at ih' ⊢
    exact ih'

lemma wrapRev_typeError (obj : Obj δ κ) (m : List (Ctor δ κ))
    (hm : ¬ ∀ x ∈ m, ∃ d, x = .componentC d) :
    (wrapRev obj m).1 = .error .typeError := by
  induction m generalizing obj with
  | nil => exact absurd (by simp) hm
  | cons x rest ih =>
    cases x with
    | handlerC c => simp [wrapRev, call1]
    | componentC d =>
      have hrest : ¬ ∀ x ∈ rest, ∃ d, x = Ctor.componentC d := by
        intro hall
        exact hm (by
          intro x hx
          rcases List.mem_cons.mp hx with h | h
          · exact ⟨d, h⟩
          · exact hall x h)
      simpa [wrapRev, call1] using ih (.wrap d obj) hrest

lemma all_componentC_eq_map (l : List (Ctor δ κ))
    (h : ∀ x ∈ l, ∃ d, x = .componentC d) :
    ∃ ds : List δ, l = ds.map .componentC := by
  induction l with
  | nil => exact ⟨[], rfl⟩
  | cons x rest ih =>
    obtain ⟨d, hd⟩ := h x (by simp)
    obtain ⟨ds, hds⟩ := ih (fun x hx => h x (by simp [hx]))
    exact ⟨d :: ds, by simp [hd, hds]⟩

lemma dispatch_request_typeError (fn : Obj δ κ → List (String × String) → ρ)
    (args : List (String × String)) (l : List (Ctor δ κ)) (hne : l ≠ [])
    (hwf : ¬ ∃ (ds : List δ) (c : κ), l = ds.map .componentC ++ [.handlerC c]) :
    (dispatch_request fn l args).1 = .error .typeError := by
  obtain ⟨l', x, rfl⟩ := List.eq_nil_or_concat l |>.resolve_left hne
  simp only [List.concat_eq_append] at hwf ⊢
  have hlast : (l' ++ [x]).getLast? = some x := List.getLast?_concat _
  have hdrop : (l' ++ [x]).dropLast = l' := List.dropLast_concat
  cases x with
  | componentC d => rw [dispatch_request, hlast]; simp [call0]
  | handlerC c =>
    have hl' : ¬ ∀ y ∈ l', ∃ d, y = Ctor.componentC d := by
      intro hall
      obtain ⟨ds, hds⟩ := all_componentC_eq_map l' hall
      exact hwf ⟨ds, c, by rw [hds]⟩
    have hl'' : ¬ ∀ y ∈ l'.reverse, ∃ d, y = Ctor.componentC d := by
      simpa using hl'
    rw [dispatch_request, hlast]
    simp only [hdrop, call0]
    have := wrapRev_typeError (δ := δ) (κ := κ) (.concrete c) l'.reverse hl''
    rcases hw : wrapRev (δ := δ) (κ := κ) (.concrete c) l'.reverse with ⟨res, rem⟩
    rw [hw] at this
    cases res with
    | error e => simp_all
    | ok o => simp at this

lemma hget_lt_length (h : CHeap δ κ) (r : Ref) (hne : hget h r ≠ []) :
    r < h.length := by
  by_contra hr
  have : h.getD r [] = [] := List.getD_eq_default _ _ (Nat.le_of_not_lt hr)
  exact hne this

lemma hget_hset_self (h : CHeap δ κ) (r : Ref) (v : List (Ctor δ κ))
    (hr : r < h.length) :
    hget (hset h r v) r = v := by
  unfold hget hset
  rw [List.getD_eq_getElem?_getD, List.getElem?_set_self (by simpa using hr)]
  rfl

/-!
Claim theorems.
-/

/-- C1 (code bug in the source): the claim — `dispatch_request` leaves the
`decorators` sequence unchanged with no side effect beyond object
construction and the entry-function call — describes the spec's stated
contract, but the code violates it: the two `decorators.pop()` call sites
drain the caller's list in place.  Evaluating the code on the demo route's
decorator list `[A, B, JSONAPIHandler]` shows the list left empty after a
completed dispatch, not unchanged. -/
theorem claim_C1_dispatch_drains_decorators :
    (dispatch_request controllerD
        ([.componentC .A, .componentC .B, .handlerC .JSONAPIHandler] : List DemoCtor)
        [("id", "1")]).2 = []
    ∧ ([.componentC .A, .componentC .B, .handlerC .JSONAPIHandler] : List DemoCtor) ≠ [] :=
  ⟨rfl, by decide⟩

/-- C2: a registered dispatch closure binds one fixed list object
(`functools.partial(..., decorators=components)` in `add_route`); on a
well-formed route (decorators `[D1, ..., Dn, Concrete]`) the first
invocation succeeds and drains that list, so the second invocation of the
same closure raises `IndexError` (`pop` from an empty list) instead of
returning the same result.  `b.decorators` is the reference to the bound
list object; `h` is the heap at first invocation. -/
theorem claim_C2_second_invocation_raises (b : Binding Ref δ κ γ) (ds : List δ) (c : κ)
    (fn : Obj δ κ → List (String × String) → ρ) (args : List (String × String))
    (h : CHeap δ κ)
    (hb : hget h b.decorators = ds.map (Ctor.componentC (κ := κ)) ++ [Ctor.handlerC c]) :
    (invokeBindingH fn b args h).1 = .ok (fn (buildChain ds c) args)
    ∧ (invokeBindingH fn b args (invokeBindingH fn b args h).2).1 = .error .indexError := by
  have hr : b.decorators < h.length := hget_lt_length h b.decorators (by simp [hb])
  have h1 : invokeBindingH fn b args h =
      (.ok (fn (buildChain ds c) args), hset h b.decorators []) := by
    unfold invokeBindingH
    rw [hb, dispatch_request_wf]
  refine ⟨by rw [h1], ?_⟩
  rw [h1]
  unfold invokeBindingH
  rw [hget_hset_self h b.decorators [] hr]
  rfl

/-- C2 witness: the demo binding, bound to a single-cell heap holding
`[A, B, JSONAPIHandler]`. -/
theorem claim_C2_second_invocation_raises_witness :
    (invokeBindingH controllerD
        (⟨"/users/<id>", some "test", controllerD, 0, "GET"⟩ : Binding Ref DemoDeco DemoConc DemoCtrl)
        [("id", "1")]
        [[.componentC .A, .componentC .B, .handlerC .JSONAPIHandler]]).1
      = .ok (controllerD (buildChain [DemoDeco.A, DemoDeco.B] DemoConc.JSONAPIHandler) [("id", "1")])
    ∧ (invokeBindingH controllerD
        (⟨"/users/<id>", some "test", controllerD, 0, "GET"⟩ : Binding Ref DemoDeco DemoConc DemoCtrl)
        [("id", "1")]
        (invokeBindingH controllerD
          (⟨"/users/<id>", some "test", controllerD, 0, "GET"⟩ : Binding Ref DemoDeco DemoConc DemoCtrl)
          [("id", "1")]
          [[.componentC .A, .componentC .B, .handlerC .JSONAPIHandler]]).2).1
      = .error .indexError :=
  claim_C2_second_invocation_raises
    ⟨"/users/<id>", some "test", controllerD, 0, "GET"⟩
    [DemoDeco.A, DemoDeco.B] DemoConc.JSONAPIHandler controllerD [("id", "1")]
    [[.componentC .A, .componentC .B, .handlerC .JSONAPIHandler]] rfl

/-- C3: the reference scenario.  Flattening the demo `routes` tree
registers exactly one rule, at path `/users/<id>`, name `test`,
decorator list `[A, B, JSONAPIHandler]`; dispatching that rule builds the
chain `A(B(JSONAPIHandler()))`, the outermost handler's `test()` returns
`{'hello': 'world', 'B': True, 'A': True}` (which the controller prints),
and the controller returns `'hello, world!'`. -/
theorem claim_C3_reference_scenario :
    add_routes (.some demoRoutes) [] "" ""
      = ([⟨"/users/<id>", some "test", controllerD,
           [.componentC .A, .componentC .B, .handlerC .JSONAPIHandler], "GET"⟩], none)
    ∧ (dispatch_request (fun (h : DemoObj) (_ : List (String × String)) => h)
        ([.componentC .A, .componentC .B, .handlerC .JSONAPIHandler] : List DemoCtor)
        [("id", "1")]).1
      = .ok (.wrap .A (.wrap .B (.concrete .JSONAPIHandler)))
    ∧ dispatch_request controllerD
        ([.componentC .A, .componentC .B, .handlerC .JSONAPIHandler] : List DemoCtor)
        [("id", "1")]
      = (.ok (some [("hello", .str "world"), ("B", .bool true), ("A", .bool true)],
          "hello, world!"), []) :=
  ⟨rfl, rfl, rfl⟩

/-- C4: for a decorator sequence `[D1, ..., Dn, Concrete]`,
`dispatch_request` instantiates `Concrete` first and wraps it with the
remaining constructors from the end backward, handing `fn` the object
`D1(D2(...Dn(Concrete())...))` (first-listed decorator outermost), and an
invoked operation applies the overriding decorators' transformations
innermost-first, so `D1`'s transformation is applied after all `Dj`,
`j > 1`, to the concrete result `v` (`applyOv` is that ordered stack). -/
theorem claim_C4_construction_order {δ κ V ρ : Type}
    (ov : δ → String → Option (V → V)) (im : κ → String → Option V)
    (fn : Obj δ κ → List (String × String) → ρ) (args : List (String × String))
    (ds : List δ) (c : κ) (op : String) (v : V) (him : im c op = some v) :
    dispatch_request fn (ds.map (Ctor.componentC (κ := κ)) ++ [Ctor.handlerC c]) args
      = (.ok (fn (buildChain ds c) args), [])
    ∧ invoke ov im (buildChain ds c) op = some (applyOv ov op ds v) :=
  ⟨dispatch_request_wf fn ds c args, invoke_buildChain ov im ds c op v him⟩

/-- C4 witness: the demo chain `[A, B, JSONAPIHandler]` and its `test`
method. -/
theorem claim_C4_construction_order_witness :
    dispatch_request controllerD
        ([DemoDeco.A, DemoDeco.B].map (Ctor.componentC (κ := DemoConc))
          ++ [Ctor.handlerC DemoConc.JSONAPIHandler]) [("id", "1")]
      = (.ok (controllerD (buildChain [DemoDeco.A, DemoDeco.B] DemoConc.JSONAPIHandler)
          [("id", "1")]), [])
    ∧ invoke demoOv demoIm (buildChain [DemoDeco.A, DemoDeco.B] DemoConc.JSONAPIHandler) "test"
      = some (applyOv demoOv "test" [DemoDeco.A, DemoDeco.B] [("hello", .str "world")]) :=
  claim_C4_construction_order demoOv demoIm controllerD [("id", "1")]
    [DemoDeco.A, DemoDeco.B] DemoConc.JSONAPIHandler "test"
    [("hello", .str "world")] rfl

/-- C9: an operation overridden by no decorator in the chain is forwarded
unchanged through each `Component` (via `Component.__getattr__`) to the
wrapped parent, recursively, and yields exactly the concrete handler's
result. -/
theorem claim_C9_passthrough {δ κ V : Type}
    (ov : δ → String → Option (V → V)) (im : κ → String → Option V)
    (ds : List δ) (c : κ) (op : String) (hno : ∀ d ∈ ds, ov d op = none) :
    invoke ov im (buildChain ds c) op = im c op :=
  invoke_passthrough ov im ds c op hno

/-- C9 witness: neither `A` nor `B` overrides `other`, so the demo chain
forwards it to `JSONAPIHandler`. -/
theorem claim_C9_passthrough_witness :
    invoke demoOv demoIm (buildChain [DemoDeco.A, DemoDeco.B] DemoConc.JSONAPIHandler) "other"
      = demoIm DemoConc.JSONAPIHandler "other" :=
  claim_C9_passthrough demoOv demoIm [DemoDeco.A, DemoDeco.B] DemoConc.JSONAPIHandler "other"
    (by intro d _; cases d <;> rfl)

/-- C10: `dispatch_request` on an empty decorators sequence raises at the
first `pop` (`IndexError`, the spec's ConfigurationError condition), and
when a constructor invocation in the sequence raises — in this program,
any sequence that is not components followed by one concrete handler
makes some constructor call raise `TypeError` — that error (the spec's
ConstructionError) is the returned outcome: in both cases the exception
propagates to the caller and no result is returned. -/
theorem claim_C10_error_conditions {δ κ ρ : Type}
    (fn : Obj δ κ → List (String × String) → ρ) (args : List (String × String)) :
    dispatch_request fn ([] : List (Ctor δ κ)) args = (.error .indexError, [])
    ∧ ∀ l : List (Ctor δ κ), l ≠ [] →
        (¬ ∃ (ds : List δ) (c : κ), l = ds.map (Ctor.componentC (κ := κ)) ++ [Ctor.handlerC c]) →
        (dispatch_request fn l args).1 = .error .typeError :=
  ⟨rfl, fun l hne hwf => dispatch_request_typeError fn args l hne hwf⟩

/-- C10 witness: the empty list, and the list `[A]` whose only
constructor invocation (`A()` with no parent argument) raises. -/
theorem claim_C10_error_conditions_witness :
    dispatch_request controllerD ([] : List DemoCtor) [] = (.error .indexError, [])
    ∧ (dispatch_request controllerD ([Ctor.componentC DemoDeco.A] : List DemoCtor) []).1
      = .error .typeError :=
  ⟨(claim_C10_error_conditions controllerD []).1,
   (claim_C10_error_conditions controllerD []).2 [Ctor.componentC DemoDeco.A]
     (by decide)
     (by
       rintro ⟨ds, c, hds⟩
       cases ds with
       | nil => simp at hds
       | cons d ds' => simp at hds)⟩

/-- The data one `Include` group contributes: path piece, components
list, name namespace. -/
structure GroupData (δ κ : Type) : Type where
  pre : String
  comps : List (Ctor δ κ)
  nspace : String

/-- A chain of nested `Include` groups around one node: `mkNested [G, H]
leaf` is `G` containing `H` containing `leaf`. -/
def mkNested : List (GroupData δ κ) → RouteLike (List (Ctor δ κ)) δ κ γ →
    RouteLike (List (Ctor δ κ)) δ κ γ
  | [], leaf => leaf
  | g :: gs, leaf => .inc g.pre (.some (.cons (mkNested gs leaf) .nil)) g.comps g.nspace

/-- C5: for a leaf reached through any chain of nested groups, the
registered rule's decorator list is the concatenation of the groups'
components lists root-to-leaf, then the leaf's own components, then the
concrete handler constructor last; paths and namespaces concatenate in
the same root-to-leaf order.  With the external entry point's `comps =
[]`, `pre = ""`, `nspace = ""`, a chain `G ⊇ H ⊇ L` yields exactly
`G.components ++ H.components ++ L.components ++ [L.handler]`. -/
theorem claim_C5_flattening_order (gs : List (GroupData δ κ)) (path : String) (ctrl : γ)
    (handler : Ctor δ κ) (method name : String) (rcs comps : List (Ctor δ κ))
    (pre nspace : String) :
    add_route (mkNested gs (.route path ctrl handler method name rcs)) comps pre nspace
      = ([⟨gs.foldl (fun a g => a ++ g.pre) pre ++ path,
           strOrNone (gs.foldl (fun a g => a ++ g.nspace) nspace ++ name),
           ctrl,
           gs.foldl (fun a g => a ++ g.comps) comps ++ rcs ++ [handler],
           method⟩], none) := by
  induction gs generalizing comps pre nspace with
  | nil => rfl
  | cons g gs ih =>
    show add_routes (.some (.cons (mkNested gs _) .nil)) (comps ++ g.comps)
        (pre ++ g.pre) (nspace ++ g.nspace) = _
    rw [add_routes, add_route_list, ih (comps ++ g.comps) (pre ++ g.pre) (nspace ++ g.nspace)]
    simp [add_route_list]

/-- C7: the registered name of a leaf route is absent (`None`) exactly
when the accumulated namespace and the route's name concatenate to the
empty string, and is that concatenation otherwise (`'{}{}'.format(...)
or None`). -/
theorem claim_C7_empty_name_absent (path : String) (ctrl : γ) (handler : Ctor δ κ)
    (method name : String) (rcs comps : List (Ctor δ κ)) (pre nspace : String) :
    (nspace ++ name = "" →
      (add_route (.route path ctrl handler method name rcs) comps pre nspace).1.map
        Binding.name = [none])
    ∧ (nspace ++ name ≠ "" →
      (add_route (.route path ctrl handler method name rcs) comps pre nspace).1.map
        Binding.name = [some (nspace ++ name)]) := by
  constructor
  · intro h; simp [add_route, strOrNone, h]
  · intro h; simp [add_route, strOrNone, h]

/-- C7 witness: the demo leaf with its namespace-plus-name `"test"`
registers `some "test"`; the same leaf with an empty name registers
`none`, not `some ""`. -/
theorem claim_C7_empty_name_absent_witness :
    (add_route (.route "/<id>" controllerD (.handlerC .JSONAPIHandler) "GET" "" [])
        ([] : List DemoCtor) "" "").1.map Binding.name = [none]
    ∧ (add_route (.route "/<id>" controllerD (.handlerC .JSONAPIHandler) "GET" "test" [])
        ([] : List DemoCtor) "" "").1.map Binding.name = [some ("" ++ "test")] :=
  ⟨(claim_C7_empty_name_absent "/<id>" controllerD (.handlerC .JSONAPIHandler) "GET" ""
      [] [] "" "").1 rfl,
   (claim_C7_empty_name_absent "/<id>" controllerD (.handlerC .JSONAPIHandler) "GET" "test"
      [] [] "" "").2 (by decide)⟩

/-- C8 counterexample: the claim says an absent (`None`) child route list
is a benign no-op; in the code `Include.__init__` stores `routes` as
given and `add_routes` runs `for route in routes`, so `routes=None`
raises `TypeError` — the registration call fails instead of returning
normally. -/
theorem claim_C8_counterexample :
    (add_routes (Routes.none : Routes (List DemoCtor) DemoDeco DemoConc DemoCtrl) [] "" "").2
      = some .typeError :=
  rfl

/-- C8 as amended: an EMPTY child route list is a no-op — zero routes
registered, no error; an ABSENT (`None`) child route list registers zero
routes but raises `TypeError`, which propagates out of registration. -/
theorem claim_C8_empty_vs_absent (comps : List (Ctor δ κ)) (pre nspace : String) :
    add_routes (Routes.some .nil : Routes (List (Ctor δ κ)) δ κ γ) comps pre nspace
      = ([], none)
    ∧ add_routes (Routes.none : Routes (List (Ctor δ κ)) δ κ γ) comps pre nspace
      = ([], some .typeError) :=
  ⟨rfl, rfl⟩

/-!
Heap lemmas for the flattener: registration only allocates fresh list
objects (the final heap extends the initial one), and the heap run
computes exactly what the pure flattener computes on the value view of
the tree.
-/

lemma hget_mono {h h' : CHeap δ κ} (hp : h <+: h') (r : Ref) (hr : r < h.length) :
    hget h' r = hget h r := by
  obtain ⟨t, rfl⟩ := hp
  unfold hget
  rw [List.getD_eq_getElem?_getD, List.getD_eq_getElem?_getD,
    List.getElem?_append_left hr]

lemma hget_alloc (h : CHeap δ κ) (v : List (Ctor δ κ)) :
    hget (h ++ [v]) h.length = v := by
  unfold hget
  rw [List.getD_eq_getElem?_getD, List.getElem?_concat_length]
  rfl

mutual

theorem add_routeH_frame (t : RouteLike Ref δ κ γ) (comps : Ref) (pre nspace : String)
    (h : CHeap δ κ) : h <+: (add_routeH t comps pre nspace h).1 := by
  cases t with
  | route path ctrl handler method name rcomps =>
    exact List.prefix_append h _
  | inc p rs gcomps ns =>
    exact (List.prefix_append h _).trans
      (add_routesH_frame rs (h.length) (pre ++ p) (nspace ++ ns)
        (h ++ [hget h comps ++ hget h gcomps]))

theorem add_routesH_frame (rts : Routes Ref δ κ γ) (comps : Ref) (pre nspace : String)
    (h : CHeap δ κ) : h <+: (add_routesH rts comps pre nspace h).1 := by
  cases rts with
  | none => exact List.prefix_refl h
  | some rs => exact add_route_listH_frame rs comps pre nspace h

theorem add_route_listH_frame (rl : RouteList Ref δ κ γ) (comps : Ref) (pre nspace : String)
    (h : CHeap δ κ) : h <+: (add_route_listH rl comps pre nspace h).1 := by
  cases rl with
  | nil => exact List.prefix_refl h
  | cons r rs =>
    have h1 := add_routeH_frame r comps pre nspace h
    rcases hr : add_routeH r comps pre nspace h with ⟨h1', bs, e⟩
    rw [hr] at h1
    simp only [add_route_listH]
    rw [hr]
    cases e with
    | some e0 => exact h1
    | none =>
      exact h1.trans (add_route_listH_frame rs comps pre nspace h1')

end

mutual

theorem boundedT_mono {n m : Nat} (hnm : n ≤ m) (t : RouteLike Ref δ κ γ)
    (hb : boundedT n t) : boundedT m t := by
  cases t with
  | route path ctrl handler method name rcomps => exact lt_of_lt_of_le hb hnm
  | inc p rs gcomps ns => exact ⟨lt_of_lt_of_le hb.1 hnm, boundedRoutes_mono hnm rs hb.2⟩

theorem boundedRoutes_mono {n m : Nat} (hnm : n ≤ m) (rts : Routes Ref δ κ γ)
    (hb : boundedRoutes n rts) : boundedRoutes m rts := by
  cases rts with
  | none => trivial
  | some rs => exact boundedList_mono hnm rs hb

theorem boundedList_mono {n m : Nat} (hnm : n ≤ m) (rl : RouteList Ref δ κ γ)
    (hb : boundedList n rl) : boundedList m rl := by
  cases rl with
  | nil => trivial
  | cons r rs => exact ⟨boundedT_mono hnm r hb.1, boundedList_mono hnm rs hb.2⟩

end

mutual

theorem viewT_mono (t : RouteLike Ref δ κ γ) {h h' : CHeap δ κ} (hp : h <+: h')
    (hb : boundedT h.length t) : viewT h' t = viewT h t := by
  cases t with
  | route path ctrl handler method name rcomps =>
    simp only [viewT]
    rw [hget_mono hp rcomps hb]
  | inc p rs gcomps ns =>
    simp only [viewT]
    rw [hget_mono hp gcomps hb.1, viewRoutes_mono rs hp hb.2]

theorem viewRoutes_mono (rts : Routes Ref δ κ γ) {h h' : CHeap δ κ} (hp : h <+: h')
    (hb : boundedRoutes h.length rts) : viewRoutes h' rts = viewRoutes h rts := by
  cases rts with
  | none => rfl
  | some rs =>
    simp only [viewRoutes]
    rw [viewList_mono rs hp hb]

theorem viewList_mono (rl : RouteList Ref δ κ γ) {h h' : CHeap δ κ} (hp : h <+: h')
    (hb : boundedList h.length rl) : viewList h' rl = viewList h rl := by
  cases rl with
  | nil => rfl
  | cons r rs =>
    simp only [viewList]
    rw [viewT_mono r hp hb.1, viewList_mono rs hp hb.2]

end

lemma viewB_mono {h h' : CHeap δ κ} (hp : h <+: h') (b : Binding Ref δ κ γ)
    (hb : b.decorators < h.length) : viewB h' b = viewB h b := by
  unfold viewB
  rw [hget_mono hp b.decorators hb]

mutual

theorem add_routeH_refines (t : RouteLike Ref δ κ γ) (comps : Ref) (pre nspace : String)
    (h : CHeap δ κ) (hb : boundedT h.length t) (hc : comps < h.length) :
    (((add_routeH t comps pre nspace h).2.1.map (viewB (add_routeH t comps pre nspace h).1),
       (add_routeH t comps pre nspace h).2.2)
      = add_route (viewT h t) (hget h comps) pre nspace)
    ∧ ∀ b ∈ (add_routeH t comps pre nspace h).2.1,
        b.decorators < (add_routeH t comps pre nspace h).1.length := by
  cases t with
  | route path ctrl handler method name rcomps =>
    constructor
    · simp only [add_routeH, halloc, viewT, add_route, List.map_cons, List.map_nil, viewB]
      rw [hget_alloc]
    · intro b hb'
      simp only [add_routeH, halloc, List.mem_singleton] at hb'
      subst hb'
      simp [add_routeH, halloc]
  | inc p rs gcomps ns2 =>
    have hpre : h <+: h ++ [hget h comps ++ hget h gcomps] := List.prefix_append h _
    have hlen : h.length ≤ (h ++ [hget h comps ++ hget h gcomps]).length := by simp
    have ih := add_routesH_refines rs h.length (pre ++ p) (nspace ++ ns2)
      (h ++ [hget h comps ++ hget h gcomps])
      (boundedRoutes_mono hlen rs hb.2) (by simp)
    rw [viewRoutes_mono rs hpre hb.2, hget_alloc] at ih
    simp only [add_routeH, halloc, viewT, add_route]
    exact ih

theorem add_routesH_refines (rts : Routes Ref δ κ γ) (comps : Ref) (pre nspace : String)
    (h : CHeap δ κ) (hb : boundedRoutes h.length rts) (hc : comps < h.length) :
    (((add_routesH rts comps pre nspace h).2.1.map (viewB (add_routesH rts comps pre nspace h).1),
       (add_routesH rts comps pre nspace h).2.2)
      = add_routes (viewRoutes h rts) (hget h comps) pre nspace)
    ∧ ∀ b ∈ (add_routesH rts comps pre nspace h).2.1,
        b.decorators < (add_routesH rts comps pre nspace h).1.length := by
  cases rts with
  | none =>
    refine ⟨rfl, ?_⟩
    intro b hb'
    simp [add_routesH] at hb'
  | some rs =>
    simp only [add_routesH, viewRoutes, add_routes]
    exact add_route_listH_refines rs comps pre nspace h hb hc

theorem add_route_listH_refines (rl : RouteList Ref δ κ γ) (comps : Ref) (pre nspace : String)
    (h : CHeap δ κ) (hb : boundedList h.length rl) (hc : comps < h.length) :
    (((add_route_listH rl comps pre nspace h).2.1.map
        (viewB (add_route_listH rl comps pre nspace h).1),
       (add_route_listH rl comps pre nspace h).2.2)
      = add_route_list (viewList h rl) (hget h comps) pre nspace)
    ∧ ∀ b ∈ (add_route_listH rl comps pre nspace h).2.1,
        b.decorators < (add_route_listH rl comps pre nspace h).1.length := by
  cases rl with
  | nil =>
    refine ⟨rfl, ?_⟩
    intro b hb'
    simp [add_route_listH] at hb'
  | cons r rs =>
    have hfr := add_routeH_frame r comps pre nspace h
    have ihr := add_routeH_refines r comps pre nspace h hb.1 hc
    rcases hr : add_routeH r comps pre nspace h with ⟨h1, bs, e⟩
    rw [hr] at hfr ihr
    simp only [add_route_listH, viewList, add_route_list]
    rw [hr, ← ihr.1]
    cases e with
    | some e0 => exact ⟨rfl, ihr.2⟩
    | none =>
      have hlen1 : h.length ≤ h1.length := hfr.length_le
      have hfr2 := add_route_listH_frame rs comps pre nspace h1
      have ihs := add_route_listH_refines rs comps pre nspace h1
        (boundedList_mono hlen1 rs hb.2) (lt_of_lt_of_le hc hlen1)
      rw [viewList_mono rs hfr hb.2, hget_mono hfr comps hc] at ihs
      rcases hr2 : add_route_listH rs comps pre nspace h1 with ⟨h2, bs', e2⟩
      rw [hr2] at hfr2 ihs
      dsimp only
      rw [hr2, ← ihs.1]
      have hmapeq : bs.map (viewB h2) = bs.map (viewB h1) :=
        List.map_congr_left (fun b hb' => viewB_mono hfr2 b (ihr.2 b hb'))
      constructor
      · simp [List.map_append, hmapeq]
      · intro b hb'
        rcases List.mem_append.mp hb' with hbs | hbs'
        · exact lt_of_lt_of_le (ihr.2 b hbs) hfr2.length_le
        · exact ihs.2 b hbs'

end

/-- One external `api.add_routes(routes)` call: `components=None`
defaults to a freshly allocated `[]` (`components = components or []`),
`prefix` and `namespace` to `''`, then the tree is flattened. -/
def runAddRoutes (rts : Routes Ref δ κ γ) (h : CHeap δ κ) :
    CHeap δ κ × List (Binding Ref δ κ γ) × Option PyErr :=
  match halloc h ([] : List (Ctor δ κ)) with
  | (h', r') => add_routesH rts r' "" "" h'

lemma runAddRoutes_spec (rts : Routes Ref δ κ γ) (h : CHeap δ κ)
    (hb : boundedRoutes h.length rts) :
    h <+: (runAddRoutes rts h).1
    ∧ (runAddRoutes rts h).2.1.map (viewB (runAddRoutes rts h).1)
        = (add_routes (viewRoutes h rts) [] "" "").1
    ∧ (runAddRoutes rts h).2.2 = (add_routes (viewRoutes h rts) [] "" "").2 := by
  have hpre : h <+: h ++ [([] : List (Ctor δ κ))] := List.prefix_append h _
  have hfr := add_routesH_frame rts h.length "" "" (h ++ [([] : List (Ctor δ κ))])
  have href := add_routesH_refines rts h.length "" "" (h ++ [([] : List (Ctor δ κ))])
    (boundedRoutes_mono (by simp) rts hb) (by simp)
  rw [viewRoutes_mono rts hpre hb, hget_alloc] at href
  have h1 := congrArg Prod.fst href.1
  have h2 := congrArg Prod.snd href.1
  simp only at h1 h2
  exact ⟨hpre.trans (by simpa [runAddRoutes, halloc] using hfr),
    by simpa [runAddRoutes, halloc] using h1,
    by simpa [runAddRoutes, halloc] using h2⟩

/-- C6: flattening only reads the route tree.  Every list object that
exists before `add_routes` runs — in particular every node's
`components` list — is still intact afterwards (the final heap extends
the initial heap; `components + route.components` allocates fresh
lists), and `routes` lists are only iterated, never written.  Hence
re-flattening the same tree a second time registers the identical
binding set: the same (path, name, decorator-list content, controller,
method) tuples, with no accumulation artifacts. -/
theorem claim_C6_no_mutation_idempotent (rts : Routes Ref δ κ γ) (h0 : CHeap δ κ)
    (hb : boundedRoutes h0.length rts) :
    h0 <+: (runAddRoutes rts h0).1
    ∧ (runAddRoutes rts h0).1 <+: (runAddRoutes rts (runAddRoutes rts h0).1).1
    ∧ (runAddRoutes rts h0).2.1.map (viewB (runAddRoutes rts h0).1)
        = (runAddRoutes rts (runAddRoutes rts h0).1).2.1.map
            (viewB (runAddRoutes rts (runAddRoutes rts h0).1).1)
    ∧ (runAddRoutes rts h0).2.2 = (runAddRoutes rts (runAddRoutes rts h0).1).2.2 := by
  have s1 := runAddRoutes_spec rts h0 hb
  have hb1 : boundedRoutes (runAddRoutes rts h0).1.length rts :=
    boundedRoutes_mono s1.1.length_le rts hb
  have s2 := runAddRoutes_spec rts (runAddRoutes rts h0).1 hb1
  rw [viewRoutes_mono rts s1.1 hb] at s2
  exact ⟨s1.1, s2.1, s1.2.1.trans s2.2.1.symm, s1.2.2.trans s2.2.2.symm⟩

/-- C6 witness: the demo tree over its initial heap (cell 0 the route's
`[B]`, cell 1 the include's `[A]`). -/
theorem claim_C6_no_mutation_idempotent_witness :
    demoHeap0 <+: (runAddRoutes (.some demoRoutesH) demoHeap0).1
    ∧ (runAddRoutes (.some demoRoutesH) demoHeap0).1 <+:
        (runAddRoutes (.some demoRoutesH) (runAddRoutes (.some demoRoutesH) demoHeap0).1).1
    ∧ (runAddRoutes (.some demoRoutesH) demoHeap0).2.1.map
        (viewB (runAddRoutes (.some demoRoutesH) demoHeap0).1)
      = (runAddRoutes (.some demoRoutesH)
          (runAddRoutes (.some demoRoutesH) demoHeap0).1).2.1.map
          (viewB (runAddRoutes (.some demoRoutesH)
            (runAddRoutes (.some demoRoutesH) demoHeap0).1).1)
    ∧ (runAddRoutes (.some demoRoutesH) demoHeap0).2.2
      = (runAddRoutes (.some demoRoutesH)
          (runAddRoutes (.some demoRoutesH) demoHeap0).1).2.2 :=
  claim_C6_no_mutation_idempotent (.some demoRoutesH) demoHeap0
    (by simp [demoHeap0, demoRoutesH, boundedRoutes, boundedList, boundedT, JSONAPIRoute])

end FlaskRouter
